import Mathlib

/-!
Verification of the ig-scraper-v2 core pipeline against its specification.

The Python modules under scrutiny are shallowly embedded as executable Lean
definitions: the data-cleaning and quality-scoring stage (data_cleaner.py),
the session/account rotation manager (utils.py), the login-with-backup and
post-link discovery routines (scraper.py), and the post-login navigation
check (main.py).  Pure Python functions become Lean functions, stateful
methods become explicit state passing, fallible steps return Option/Except,
and the IEEE-double score arithmetic over tenth-valued weights is carried
out in exact rational arithmetic.
-/

namespace IGScraper

/-- Python substring membership (the in operator on str): pat occurs
contiguously inside hay. -/
def listContains (hay pat : List Char) : Bool :=
  match hay with
  | [] => pat.isEmpty
  | c :: t => pat.isPrefixOf (c :: t) || listContains t pat

/-- Substring test lifted to String, matching the Python expression
pat in hay. -/
def strContains (hay pat : String) : Bool :=
  listContains hay.data pat.data

/-- Character class [a-zA-Z0-9._] used by the username regexes in
data_cleaner.py. -/
def isUserChar (c : Char) : Bool :=
  c.isAlpha || c.isDigit || c == '.' || c == '_'

/-- Python re.match of the anchored pattern [a-zA-Z0-9._]+ followed by the
end anchor.  In Python the end anchor also matches just before a single
trailing newline, so a body of allowed characters plus one final newline is
accepted as well. -/
def matchesUserPattern (s : String) : Bool :=
  let core := fun (l : List Char) => !l.isEmpty && l.all isUserChar
  core s.data || (s.data.getLast? == some '\n' && core s.data.dropLast)

/-- Cleaned post record: the dictionary assembled by
DataCleaner.clean_post_data before scoring, with comments as the
key-to-text mapping produced by clean_comments. -/
structure CleanedPost where
  usernamePost : String
  urlPost : String
  releaseDate : String
  caption : String
  comments : List (String × String)
deriving Repr, DecidableEq

/-- Username branch of DataCleaner.calculate_quality_score: the amount the
username block adds to score (each Python branch either runs one
score += w statement or leaves score unchanged, so the block is the
addition of a branch-selected weight). -/
def usernameScoreSrc (username : String) : ℚ :=
  if username ≠ "" ∧ username ≠ "unknown_user" then
    if matchesUserPattern username then 2/10 else 1/10
  else 0

/-- URL branch of DataCleaner.calculate_quality_score. -/
def urlScoreSrc (url : String) : ℚ :=
  if url ≠ "" ∧ strContains url "instagram.com" = true ∧
      (strContains url "/p/" = true ∨ strContains url "/reel/" = true) then 2/10
  else if url ≠ "" then 1/10
  else 0

/-- Caption branch of DataCleaner.calculate_quality_score. -/
def captionScoreSrc (caption : String) : ℚ :=
  if caption ≠ "" then
    if caption.length > 50 then 3/10
    else if caption.length > 10 then 2/10
    else 1/10
  else 0

/-- Comments branch of DataCleaner.calculate_quality_score.  The average
comment length is the exact rational quotient here; the Python float
quotient decides the same comparisons against the integer thresholds 10
and 20, because an integer quotient sum/count differs from an integer
threshold by at least 1/count, far above double rounding error. -/
def commentScoreSrc (comments : List (String × String)) : ℚ :=
  if comments ≠ [] then
    let count := comments.length
    let avg : ℚ := ((comments.map (fun kv => kv.2.length)).sum : ℚ) / (count : ℚ)
    if count ≥ 5 ∧ avg > 20 then 3/10
    else if count ≥ 3 ∧ avg > 10 then 2/10
    else if count ≥ 1 then 1/10
    else 0
  else 0

/-- Translation of DataCleaner.calculate_quality_score (data_cleaner.py
lines 158-208): score starts at 0, the four blocks accumulate their
branch-selected weights in order, and the result is capped by
min(score, 1.0).  The weights 0.1, 0.2, 0.3 of the IEEE-double original
are the exact rationals 1/10, 2/10, 3/10 here. -/
def calculate_quality_score (post : CleanedPost) : ℚ :=
  min (0 + usernameScoreSrc post.usernamePost + urlScoreSrc post.urlPost +
    captionScoreSrc post.caption + commentScoreSrc post.comments) 1

/-- Author contribution as worded by the spec: 0.2 if the author is
non-sentinel and matches the allowed character class, else 0.1 if merely
non-empty, else 0.  The character-class match here is the plain full-string
one, with no trailing-newline allowance. -/
def specAuthorScore (username : String) : ℚ :=
  if username ≠ "" ∧ username ≠ "unknown_user" then
    if username.data ≠ [] ∧ username.data.all isUserChar = true then 2/10 else 1/10
  else 0

/-- URL contribution as worded by the spec: 0.2 for the canonical Instagram
post/reel shape (contains instagram.com and a /p/ or /reel/ segment),
0.1 if merely non-empty. -/
def specUrlScore (url : String) : ℚ :=
  if url ≠ "" ∧ strContains url "instagram.com" = true ∧
      (strContains url "/p/" = true ∨ strContains url "/reel/" = true) then 2/10
  else if url ≠ "" then 1/10
  else 0

/-- Caption contribution as worded by the spec: 0.3 if length exceeds 50,
0.2 if length exceeds 10, 0.1 if non-empty. -/
def specCaptionScore (caption : String) : ℚ :=
  if caption ≠ "" then
    if caption.length > 50 then 3/10
    else if caption.length > 10 then 2/10
    else 1/10
  else 0

/-- Comment contribution as worded by the spec: 0.3 for at least 5 comments
averaging more than 20 characters, 0.2 for at least 3 averaging more than
10, 0.1 for at least one comment. -/
def specCommentScore (comments : List (String × String)) : ℚ :=
  if comments ≠ [] then
    let count := comments.length
    let avg : ℚ := ((comments.map (fun kv => kv.2.length)).sum : ℚ) / (count : ℚ)
    if count ≥ 5 ∧ avg > 20 then 3/10
    else if count ≥ 3 ∧ avg > 10 then 2/10
    else if count ≥ 1 then 1/10
    else 0
  else 0

/-- Quality score as the spec words it: the sum of the four independent
contributions, capped at 1. -/
def specQualityScore (post : CleanedPost) : ℚ :=
  min (specAuthorScore post.usernamePost + specUrlScore post.urlPost +
    specCaptionScore post.caption + specCommentScore post.comments) 1

/-- Property of a username that actually came out of
DataCleaner.clean_username: the sentinel, or a non-empty string over the
allowed character class. -/
def CleanedUsername (u : String) : Prop :=
  u = "unknown_user" ∨ (u ≠ "" ∧ u.data.all isUserChar = true)

/-- Quality-scoring scenario of the spec with the URL it literally gives:
author test_user, url https://host/p/X/, a 60-character caption, and five
comments of 25 characters each. -/
def scenarioHostPost : CleanedPost :=
  { usernamePost := "test_user"
    urlPost := "https://host/p/X/"
    releaseDate := "2024-01-01T00:00:00+00:00"
    caption := String.mk (List.replicate 60 'a')
    comments := [("comment1", String.mk (List.replicate 25 'x')),
                 ("comment2", String.mk (List.replicate 25 'x')),
                 ("comment3", String.mk (List.replicate 25 'x')),
                 ("comment4", String.mk (List.replicate 25 'x')),
                 ("comment5", String.mk (List.replicate 25 'x'))] }

/-- Quality-scoring scenario with a URL that actually has the canonical
Instagram post shape the code tests for. -/
def scenarioInstagramPost : CleanedPost :=
  { scenarioHostPost with urlPost := "https://www.instagram.com/p/X/" }

/-! Post-login navigation check, main.py lines 99-141. -/

/-- Failure-pattern substrings listed in test_basic_navigation. -/
def failed_login_patterns : List String :=
  ["challenge", "two_factor", "checkpoint", "suspend", "confirm"]

/-- Translation of the pattern loop closing test_basic_navigation
(main.py lines 127-133).  The Python loop body is an
if pattern in current_url.lower(): return False test followed by a further
return False at the same loop depth, executed unconditionally, so the
first iteration always leaves the function; the remaining patterns are
never inspected and the success epilogue below the loop is unreachable
whenever the pattern list is non-empty. -/
def navPatternLoop (lowered : String) : List String → Bool
  | [] => true
  | p :: _rest => if strContains lowered p then false else false

/-- URL-classification core of IGScraperPhase1.test_basic_navigation
(main.py lines 99-141), taking the current URL observed after navigating
home; the browser-driving steps (navigate, sleep, screenshot) around it
are I/O and carry no data into the classification. -/
def test_basic_navigation (current_url : String) : Bool :=
  if strContains current_url "instagram.com/accounts/login" then false
  else if strContains current_url "instagram.com/auth_platform/codeentry" then false
  else navPatternLoop current_url.toLower failed_login_patterns

/-! Session manager and account rotation, utils.py lines 18-135. -/

/-- Credential pair loaded from configuration. -/
structure Account where
  username : String
  password : String
deriving Repr, DecidableEq

/-- State of SessionManager relevant to account rotation: the loaded
account list and the integer cursor current_account_index (a Python int,
modelled as an integer; the operations below only increment it or reset
it to zero). -/
structure SessionManager where
  accounts : List Account
  current_account_index : ℤ
deriving Repr, DecidableEq

/-- Translation of SessionManager.get_current_account (utils.py lines
46-51): raises IndexError once the cursor has passed the end, modelled as
none.  A negative cursor is unreachable (the cursor starts at 0 and is
only incremented or reset to 0), so plain toNat indexing is faithful. -/
def get_current_account (sm : SessionManager) : Option Account :=
  if sm.current_account_index ≥ (sm.accounts.length : ℤ) then none
  else sm.accounts.get? sm.current_account_index.toNat

/-- Cursor increment performed first in switch_to_backup_account. -/
def bumpIndex (sm : SessionManager) : SessionManager :=
  { sm with current_account_index := sm.current_account_index + 1 }

/-- Translation of SessionManager.switch_to_backup_account (utils.py
lines 53-63): increment the cursor unconditionally, then either signal
exhaustion (None) or return the account now under the cursor.  The pair
carries the returned value together with the mutated state. -/
def switch_to_backup_account (sm : SessionManager) : Option Account × SessionManager :=
  let sm2 := bumpIndex sm
  if sm2.current_account_index ≥ (sm2.accounts.length : ℤ) then (none, sm2)
  else (get_current_account sm2, sm2)

/-- Translation of SessionManager.get_remaining_accounts (utils.py lines
129-131). -/
def get_remaining_accounts (sm : SessionManager) : ℤ :=
  (sm.accounts.length : ℤ) - sm.current_account_index - 1

/-- Translation of SessionManager.reset_account_index (utils.py lines
133-135). -/
def reset_account_index (sm : SessionManager) : SessionManager :=
  { sm with current_account_index := 0 }

/-- Operations of the Account Rotation Manager named by the spec. -/
inductive RotationOp where
  | advance
  | currentAcc
  | remaining
  | reset
deriving Repr, DecidableEq

/-- State effect of one rotation operation: current and remaining are
read-only, advance increments through switch_to_backup_account, reset
rewinds to the first account. -/
def applyOp (sm : SessionManager) : RotationOp → SessionManager
  | RotationOp.advance => (switch_to_backup_account sm).2
  | RotationOp.currentAcc => sm
  | RotationOp.remaining => sm
  | RotationOp.reset => reset_account_index sm

/-- Runs a sequence of rotation operations from a starting state. -/
def runOps (sm : SessionManager) : List RotationOp → SessionManager
  | [] => sm
  | op :: rest => runOps (applyOp sm op) rest

/-- Decides whether every advance in the sequence is issued while the
state is not yet exhausted (cursor strictly below the account count). -/
def advancesGuarded (sm : SessionManager) : List RotationOp → Bool
  | [] => true
  | op :: rest =>
    (op != RotationOp.advance || decide (sm.current_account_index < (sm.accounts.length : ℤ))) &&
      advancesGuarded (applyOp sm op) rest

/-- State reached after k calls of switch_to_backup_account. -/
def stateAfterCalls (sm : SessionManager) : Nat → SessionManager
  | 0 => sm
  | k + 1 => (switch_to_backup_account (stateAfterCalls sm k)).2

/-! Login with backup support, scraper.py lines 280-304.  The per-account
login attempt login_with_account drives the browser and is abstracted as
a boolean oracle on accounts. -/

/-- Backup retry loop of InstagramScraper.login_with_backup_support
(scraper.py lines 292-300): switch to the next account; exhaustion is
terminal failure, a successful attempt returns immediately, a failed
attempt loops.  The mutated state of switch_to_backup_account is always
bumpIndex of its argument, which the recursion threads explicitly. -/
def backupLoop (login : Account → Bool) (sm : SessionManager) : Bool × SessionManager :=
  match h : (switch_to_backup_account sm).1 with
  | none => (false, bumpIndex sm)
  | some acc =>
    if login acc then (true, bumpIndex sm) else backupLoop login (bumpIndex sm)
termination_by ((sm.accounts.length : ℤ) + 1 - sm.current_account_index).toNat
decreasing_by
  simp only [switch_to_backup_account, bumpIndex] at h
  split at h
  · simp at h
  · rename_i hlt
    simp only [bumpIndex, not_le] at hlt ⊢
    omega

/-- Translation of InstagramScraper.login_with_backup_support
(scraper.py lines 280-304): try the account currently under the cursor,
then rotate through the remaining accounts; an IndexError from
get_current_account is caught by the enclosing handler and yields
failure. -/
def login_with_backup_support (login : Account → Bool) (sm : SessionManager) :
    Bool × SessionManager :=
  match get_current_account sm with
  | none => (false, sm)
  | some acc => if login acc then (true, sm) else backupLoop login sm

/-- Accounts on which backupLoop invokes the login attempt, in call
order. -/
def backupAttempts (login : Account → Bool) (sm : SessionManager) : List Account :=
  match h : (switch_to_backup_account sm).1 with
  | none => []
  | some acc =>
    if login acc then [acc] else acc :: backupAttempts login (bumpIndex sm)
termination_by ((sm.accounts.length : ℤ) + 1 - sm.current_account_index).toNat
decreasing_by
  simp only [switch_to_backup_account, bumpIndex] at h
  split at h
  · simp at h
  · rename_i hlt
    simp only [bumpIndex, not_le] at hlt ⊢
    omega

/-- Accounts on which login_with_backup_support invokes the login
attempt, in call order. -/
def login_attempt_sequence (login : Account → Bool) (sm : SessionManager) : List Account :=
  match get_current_account sm with
  | none => []
  | some acc => if login acc then [acc] else acc :: backupAttempts login sm

/-- Reference behavior on a plain list: attempt each element in order and
stop right after the first success. -/
def attemptsOn (login : Account → Bool) : List Account → List Account
  | [] => []
  | a :: t => if login a then [a] else a :: attemptsOn login t

/-- Three-account list used to instantiate the rotation theorems. -/
def accs3 : List Account :=
  [⟨"user_a", "pass_a"⟩, ⟨"user_b", "pass_b"⟩, ⟨"user_c", "pass_c"⟩]

/-! Post-link discovery, scraper.py lines 588-655.  The selector queries
against the live DOM yield a list of elements whose href attributes are
the input here (none models a missing attribute or an element access that
threw and was skipped by the per-element handler). -/

/-- URL-shape filter of _get_post_links: a post or reel segment and the
instagram.com host substring. -/
def isPostLink (href : String) : Bool :=
  (strContains href "/p/" || strContains href "/reel/") && strContains href "instagram.com"

/-- Python str.startswith. -/
def pyStartsWith (s pre : String) : Bool :=
  pre.data.isPrefixOf s.data

/-- Relative-to-absolute rewrite of _get_post_links. -/
def normalizeHref (href : String) : String :=
  if pyStartsWith href "/" then "https://www.instagram.com" ++ href else href

/-- Collection loop of _get_post_links (scraper.py lines 622-641): skip
absent or empty hrefs, normalize, keep URLs passing the shape filter, and
break out of the element loop as soon as the raw collected count —
duplicates included — reaches max_posts. -/
def collectPostLinks (max_posts : Nat) (acc : List String) : List (Option String) → List String
  | [] => acc
  | h :: rest =>
    match h with
    | none => collectPostLinks max_posts acc rest
    | some href =>
      if href = "" then collectPostLinks max_posts acc rest
      else
        let href2 := normalizeHref href
        if isPostLink href2 then
          let acc2 := acc ++ [href2]
          if max_posts ≤ acc2.length then acc2
          else collectPostLinks max_posts acc2 rest
        else collectPostLinks max_posts acc rest

/-- Order-preserving deduplication of _get_post_links (scraper.py lines
643-649): a seen set plus an output list keeping first occurrences. -/
def dedupKeep (seen : List String) : List String → List String
  | [] => []
  | x :: rest => if x ∈ seen then dedupKeep seen rest else x :: dedupKeep (x :: seen) rest

/-- Translation of InstagramScraper._get_post_links (scraper.py lines
588-655) on the href attributes of the elements the selector strategies
found: collect with the early stop, deduplicate preserving order, and
truncate to max_posts. -/
def get_post_links (hrefs : List (Option String)) (max_posts : Nat) : List String :=
  (dedupKeep [] (collectPostLinks max_posts [] hrefs)).take max_posts

/-- Valid links of the element list with no early stop: the full sequence
of post links the queried elements offer, duplicates included. -/
def allValidLinks : List (Option String) → List String
  | [] => []
  | none :: rest => allValidLinks rest
  | some href :: rest =>
    if href = "" then allValidLinks rest
    else
      let href2 := normalizeHref href
      if isPostLink href2 then href2 :: allValidLinks rest
      else allValidLinks rest

/-! Timestamp cleaning, data_cleaner.py lines 96-119.  The Python stdlib
datetime operations are abstracted: fromisoformat and fromtimestamp
become oracle parameters returning none exactly when Python raises, and
any datetime they produce has calendar-valid fields, which is an
invariant of the datetime type itself. -/

/-- Timezone-aware datetime at second resolution: the fields datetime
guarantees to be in calendar range, plus an optional UTC offset
(sign, hours, minutes). -/
structure PyDateTime where
  year : Nat
  month : Nat
  day : Nat
  hour : Nat
  minute : Nat
  second : Nat
  tz : Option (Bool × Nat × Nat)
deriving Repr, DecidableEq

/-- Field ranges the Python datetime type guarantees. -/
def PyDateTime.validFields (dt : PyDateTime) : Bool :=
  decide (1 ≤ dt.year) && decide (dt.year ≤ 9999) &&
  decide (1 ≤ dt.month) && decide (dt.month ≤ 12) &&
  decide (1 ≤ dt.day) && decide (dt.day ≤ 31) &&
  decide (dt.hour ≤ 23) && decide (dt.minute ≤ 59) && decide (dt.second ≤ 59) &&
  (match dt.tz with
   | none => true
   | some (_, h, m) => decide (h ≤ 23) && decide (m ≤ 59))

/-- Decimal digit character for the low decimal digit of n. -/
def digitChar (d : Nat) : Char :=
  Char.ofNat (48 + d % 10)

/-- Two-digit zero-padded rendering, as %02d formats numbers below 100. -/
def pad2 (n : Nat) : List Char :=
  [digitChar (n / 10), digitChar n]

/-- Four-digit zero-padded rendering, as %04d formats numbers below
10000. -/
def pad4 (n : Nat) : List Char :=
  [digitChar (n / 1000), digitChar (n / 100), digitChar (n / 10), digitChar n]

/-- Character list of datetime.isoformat at second resolution:
YYYY-MM-DDTHH:MM:SS followed by a +HH:MM / -HH:MM offset when the
datetime is timezone-aware. -/
def isoChars (dt : PyDateTime) : List Char :=
  pad4 dt.year ++ '-' :: pad2 dt.month ++ '-' :: pad2 dt.day ++
    'T' :: pad2 dt.hour ++ ':' :: pad2 dt.minute ++ ':' :: pad2 dt.second ++
    (match dt.tz with
     | none => []
     | some (neg, h, m) => (if neg then '-' else '+') :: (pad2 h ++ ':' :: pad2 m))

/-- String form of datetime.isoformat. -/
def isoformat (dt : PyDateTime) : String :=
  String.mk (isoChars dt)

/-- Numeric value of two digit characters. -/
def val2 (a b : Char) : Nat :=
  10 * (a.toNat - 48) + (b.toNat - 48)

/-- Numeric value of four digit characters. -/
def val4 (a b c d : Char) : Nat :=
  1000 * (a.toNat - 48) + 100 * (b.toNat - 48) + 10 * (c.toNat - 48) + (d.toNat - 48)

/-- Syntactic ISO-8601 validity checker at second resolution: the
YYYY-MM-DDTHH:MM:SS skeleton with in-range fields, optionally followed by
a signed HH:MM offset. -/
def isValidISO8601 (s : String) : Bool :=
  match s.data with
  | y1 :: y2 :: y3 :: y4 :: '-' :: m1 :: m2 :: '-' :: d1 :: d2 ::
      'T' :: h1 :: h2 :: ':' :: n1 :: n2 :: ':' :: s1 :: s2 :: rest =>
    ([y1, y2, y3, y4, m1, m2, d1, d2, h1, h2, n1, n2, s1, s2].all Char.isDigit) &&
    decide (1 ≤ val4 y1 y2 y3 y4) &&
    decide (1 ≤ val2 m1 m2) && decide (val2 m1 m2 ≤ 12) &&
    decide (1 ≤ val2 d1 d2) && decide (val2 d1 d2 ≤ 31) &&
    decide (val2 h1 h2 ≤ 23) && decide (val2 n1 n2 ≤ 59) && decide (val2 s1 s2 ≤ 59) &&
    (match rest with
     | [] => true
     | sg :: o1 :: o2 :: ':' :: o3 :: o4 :: [] =>
       (sg == '+' || sg == '-') && ([o1, o2, o3, o4].all Char.isDigit) &&
         decide (val2 o1 o2 ≤ 23) && decide (val2 o3 o4 ≤ 59)
     | _ => false)
  | _ => false

/-- Python whitespace strip on a character list. -/
def stripChars (l : List Char) : List Char :=
  ((l.dropWhile Char.isWhitespace).reverse.dropWhile Char.isWhitespace).reverse

/-- Python str.strip. -/
def pyStrip (s : String) : String :=
  String.mk (stripChars s.data)

/-- Python str.replace for a one-character pattern (the source replaces
the single character Z by +00:00). -/
def pyReplace1 (pat : Char) (rep : List Char) (l : List Char) : List Char :=
  l.bind (fun c => if c = pat then rep else [c])

/-- Numeric value of a decimal digit string, as int() parses it. -/
def natOfDigits (l : List Char) : Nat :=
  l.foldl (fun n c => 10 * n + (c.toNat - 48)) 0

/-- Translation of DataCleaner.clean_release_date (data_cleaner.py lines
96-119).  The oracle p models datetime.fromisoformat on the Z-rewritten
string and the oracle e models datetime.fromtimestamp on the parsed
integer; none models a raise, which the enclosing try/except turns into
the current-time fallback.  The digit test models str.isdigit on ASCII
digits; a non-ASCII decimal string makes int() or fromtimestamp raise in
Python and lands in the same fallback. -/
def clean_release_date (p : String → Option PyDateTime) (e : Nat → Option PyDateTime)
    (now : PyDateTime) (release_date : String) : String :=
  if release_date = "" then isoformat now
  else
    let rd := pyStrip release_date
    if strContains rd "T" then
      match p (String.mk (pyReplace1 'Z' "+00:00".data rd.data)) with
      | some dt => isoformat dt
      | none => isoformat now
    else if rd.data ≠ [] ∧ rd.data.all Char.isDigit = true then
      match e (natOfDigits rd.data) with
      | some dt => isoformat dt
      | none => isoformat now
    else isoformat now

/-! URL cleaning, data_cleaner.py lines 78-94. -/

/-- Hexadecimal digit test for percent-escapes. -/
def isHexDigitCh (c : Char) : Bool :=
  c.isDigit || ('a' ≤ c && c ≤ 'f') || ('A' ≤ c && c ≤ 'F')

/-- Value of a hexadecimal digit character. -/
def hexVal (c : Char) : Nat :=
  if c.isDigit then c.toNat - 48
  else if 'a' ≤ c then c.toNat - 87
  else c.toNat - 55

/-- Percent-decoding of urllib.parse.unquote, modelled at byte level for
single-byte escapes: a valid %hh escape becomes the character of that
byte, an invalid escape stays literal.  Multi-byte UTF-8 escape runs,
which no claim exercises, would decode to one character per byte here
rather than one per run. -/
def unquoteChars : List Char → List Char
  | [] => []
  | c :: rest =>
    if c = '%' then
      match rest with
      | a :: b :: rest2 =>
        if isHexDigitCh a && isHexDigitCh b then
          Char.ofNat (16 * hexVal a + hexVal b) :: unquoteChars rest2
        else c :: unquoteChars (a :: b :: rest2)
      | short => c :: short
    else c :: unquoteChars rest
termination_by l => l.length
decreasing_by
  all_goals simp only [List.length_cons, List.length_drop]
  all_goals first
    | omega
    | exact Nat.lt_succ_of_le ((List.dropWhile_suffix _).sublist.length_le)

/-- Translation of DataCleaner.clean_url (data_cleaner.py lines 78-94):
empty stays empty, otherwise strip, percent-decode, and rewrite a
relative /p/ or /reel/ path to the absolute Instagram form. -/
def clean_url (url : String) : String :=
  if url = "" then ""
  else
    let u1 := pyStrip url
    let u2 : String := String.mk (unquoteChars u1.data)
    if ¬(pyStartsWith u2 "https://www.instagram.com/" = true) then
      if pyStartsWith u2 "/p/" || pyStartsWith u2 "/reel/" then
        "https://www.instagram.com" ++ u2
      else u2
    else u2

/-- Character class of Instagram shortcodes. -/
def isShortcodeChar (c : Char) : Bool :=
  c.isAlpha || c.isDigit || c == '_' || c == '-'

/-- URL already in the canonical absolute Instagram post/reel form:
https://www.instagram.com/p/CODE/ or https://www.instagram.com/reel/CODE/
with a non-empty shortcode. -/
def CanonicalPostUrl (u : String) : Prop :=
  ∃ (kind : String) (code : List Char),
    (kind = "p" ∨ kind = "reel") ∧ code ≠ [] ∧ code.all isShortcodeChar = true ∧
      u = "https://www.instagram.com/" ++ kind ++ "/" ++ String.mk code ++ "/"

/-! Username cleaning, data_cleaner.py lines 58-76 and 251-260. -/

/-- Translation of DataCleaner._extract_username_from_url: the first
position where instagram.com/ is followed by at least one non-slash
character yields that run, re.search style; no such position yields the
empty string. -/
def extractAfterHost : List Char → Option (List Char)
  | [] => none
  | c :: rest =>
    if "instagram.com/".data.isPrefixOf (c :: rest) then
      let tail := (c :: rest).drop 14
      let run := tail.takeWhile (fun ch => ch ≠ '/')
      if run ≠ [] then some run else extractAfterHost rest
    else extractAfterHost rest

/-- Translation of DataCleaner.clean_username (data_cleaner.py lines
58-76): falsy input gives the sentinel; otherwise strip, pull the
username out of a URL when the value starts with http, strip leading @
signs, keep only the allowed characters, and fall back to the sentinel
when nothing is left. -/
def clean_username (username : String) : String :=
  if username = "" then "unknown_user"
  else
    let u1 := pyStrip username
    let u2 := if pyStartsWith u1 "http" then
        (match extractAfterHost u1.data with
         | some run => String.mk run
         | none => "")
      else u1
    let u3 : String := String.mk (u2.data.dropWhile (fun c => c = '@'))
    let u4 : String := String.mk (u3.data.filter isUserChar)
    if u4 = "" then "unknown_user" else u4

/-! Caption and comment cleaning, data_cleaner.py lines 121-156 and
262-269.  html.unescape and the NFKC normalization of unicodedata are
stdlib text transforms abstracted as oracle parameters; both are total on
strings. -/

/-- Whitespace-run collapse of re.sub over the whitespace-plus pattern:
every maximal whitespace run becomes a single space. -/
def collapseWs : List Char → List Char
  | [] => []
  | c :: rest =>
    if c.isWhitespace then
      ' ' :: collapseWs (rest.dropWhile Char.isWhitespace)
    else c :: collapseWs rest
termination_by l => l.length
decreasing_by
  all_goals simp only [List.length_cons, List.length_drop]
  all_goals first
    | omega
    | exact Nat.lt_succ_of_le ((List.dropWhile_suffix _).sublist.length_le)

/-- Translation of the re.sub collapsing a newline, inner whitespace and
a newline to exactly two newlines: at a newline, the regex greedily
swallows the following whitespace run back to its last newline; with no
closing newline the position does not match.  After collapseWs no newline
remains, so inside clean_caption this pass is the identity. -/
def newlinePairSub : List Char → List Char
  | [] => []
  | c :: rest =>
    if c = '\n' then
      let run := rest.takeWhile Char.isWhitespace
      let fromLast := run.reverse.dropWhile (fun x => ¬(x = '\n'))
      match fromLast with
      | [] => c :: newlinePairSub rest
      | _ :: _ => '\n' :: '\n' :: newlinePairSub (rest.drop fromLast.length)
    else c :: newlinePairSub rest
termination_by l => l.length
decreasing_by
  all_goals simp only [List.length_cons, List.length_drop]
  all_goals first
    | omega
    | exact Nat.lt_succ_of_le ((List.dropWhile_suffix _).sublist.length_le)

/-- Translation of DataCleaner._normalize_emoji: returns the text
unchanged. -/
def normalize_emoji (s : String) : String := s

/-- Translation of DataCleaner.clean_caption (data_cleaner.py lines
121-144): falsy gives the empty string; otherwise HTML-entity decode,
NFKC normalization, whitespace collapse, the newline-pair pass, strip,
and the identity emoji pass. -/
def clean_caption (unescape nfkc : String → String) (caption : String) : String :=
  if caption = "" then ""
  else
    let c1 := unescape caption
    let c2 := nfkc c1
    let c3 : String := String.mk (collapseWs c2.data)
    let c4 : String := String.mk (newlinePairSub c3.data)
    let c5 := pyStrip c4
    normalize_emoji c5

/-! Dynamic values and the cleaning orchestration, data_cleaner.py lines
26-56.  Python dictionary values are dynamically typed; the PyVal sum
captures the shapes the cleaners inspect, and each per-field cleaner
returns an error exactly where the Python step raises on a value of the
wrong type. -/

/-- Dynamically typed Python value as the cleaners can encounter it. -/
inductive PyVal where
  | str : String → PyVal
  | int : Int → PyVal
  | rat : ℚ → PyVal
  | bool : Bool → PyVal
  | list : List PyVal → PyVal
  | dict : List (String × PyVal) → PyVal
  | pynone : PyVal

/-- Python truthiness on the modelled values. -/
def PyVal.truthy : PyVal → Bool
  | PyVal.str s => decide (s ≠ "")
  | PyVal.int n => decide (n ≠ 0)
  | PyVal.rat q => decide (q ≠ 0)
  | PyVal.bool b => b
  | PyVal.list l => !l.isEmpty
  | PyVal.dict l => !l.isEmpty
  | PyVal.pynone => false

/-- Python dict.get with a default. -/
def dictGet (d : List (String × PyVal)) (key : String) (dflt : PyVal) : PyVal :=
  match d.lookup key with
  | some v => v
  | none => dflt

/-- clean_username on a dynamic value: falsy values short-circuit to the
sentinel before any attribute access; a truthy non-string raises at
.strip(). -/
def clean_username_val (v : PyVal) : Except Unit String :=
  if v.truthy = false then Except.ok "unknown_user"
  else match v with
    | PyVal.str s => Except.ok (clean_username s)
    | _ => Except.error ()

/-- clean_url on a dynamic value: falsy values short-circuit to the empty
string; a truthy non-string raises at .strip(). -/
def clean_url_val (v : PyVal) : Except Unit String :=
  if v.truthy = false then Except.ok ""
  else match v with
    | PyVal.str s => Except.ok (clean_url s)
    | _ => Except.error ()

/-- clean_release_date on a dynamic value: falsy values give the
current-time fallback; a truthy non-string raises at .strip() inside the
inner try and is caught there, giving the same fallback — this cleaner
never propagates an error. -/
def clean_release_date_val (p : String → Option PyDateTime) (e : Nat → Option PyDateTime)
    (now : PyDateTime) (v : PyVal) : String :=
  if v.truthy = false then isoformat now
  else match v with
    | PyVal.str s => clean_release_date p e now s
    | _ => isoformat now

/-- clean_caption on a dynamic value: falsy values give the empty string;
a truthy non-string raises at html.unescape. -/
def clean_caption_val (unescape nfkc : String → String) (v : PyVal) : Except Unit String :=
  if v.truthy = false then Except.ok ""
  else match v with
    | PyVal.str s => Except.ok (clean_caption unescape nfkc s)
    | _ => Except.error ()

/-- Translation of DataCleaner.clean_comments (data_cleaner.py lines
146-156) over the dict items: keep string values whose strip is
non-empty, clean them like captions, and drop entries that clean to
nothing. -/
def clean_comments_items (unescape nfkc : String → String) :
    List (String × PyVal) → List (String × String)
  | [] => []
  | (k, PyVal.str s) :: rest =>
    if pyStrip s ≠ "" then
      let c := clean_caption unescape nfkc s
      if c ≠ "" then (k, c) :: clean_comments_items unescape nfkc rest
      else clean_comments_items unescape nfkc rest
    else clean_comments_items unescape nfkc rest
  | _ :: rest => clean_comments_items unescape nfkc rest

/-- clean_comments on a dynamic value: .items() raises on anything that
is not a dict. -/
def clean_comments_val (unescape nfkc : String → String) (v : PyVal) :
    Except Unit (List (String × String)) :=
  match v with
  | PyVal.dict items => Except.ok (clean_comments_items unescape nfkc items)
  | _ => Except.error ()

/-! Metadata extraction, data_cleaner.py lines 210-287.  The emoji-count
of the third-party emoji package is abstracted as an oracle. -/

/-- Character class of the hashtag regex: ASCII word characters plus the
listed unicode letter ranges. -/
def isHashtagChar (c : Char) : Bool :=
  c.isAlpha || c.isDigit || c == '_' ||
  (0xc0 ≤ c.toNat && c.toNat ≤ 0x17e) || (0x400 ≤ c.toNat && c.toNat ≤ 0x4ff) ||
  (0x590 ≤ c.toNat && c.toNat ≤ 0x5ff) || (0x600 ≤ c.toNat && c.toNat ≤ 0x6ff) ||
  (0x700 ≤ c.toNat && c.toNat ≤ 0x74f) || (0x780 ≤ c.toNat && c.toNat ≤ 0x7bf) ||
  (0x1100 ≤ c.toNat && c.toNat ≤ 0x11ff) || (0x3040 ≤ c.toNat && c.toNat ≤ 0x309f) ||
  (0x30a0 ≤ c.toNat && c.toNat ≤ 0x30ff) || (0x4e00 ≤ c.toNat && c.toNat ≤ 0x9fff) ||
  (0xac00 ≤ c.toNat && c.toNat ≤ 0xd7af) || (0xf900 ≤ c.toNat && c.toNat ≤ 0xfaff)

/-- re.findall for a tag character followed by one or more characters of
a class: left-to-right, non-overlapping, each match resuming after its
end. -/
def findTagged (tag : Char) (good : Char → Bool) : List Char → List (List Char)
  | [] => []
  | c :: rest =>
    if c = tag then
      let run := rest.takeWhile good
      if run ≠ [] then run :: findTagged tag good (rest.drop run.length)
      else findTagged tag good rest
    else findTagged tag good rest
termination_by l => l.length
decreasing_by
  all_goals simp only [List.length_cons, List.length_drop]
  all_goals first
    | omega
    | exact Nat.lt_succ_of_le ((List.dropWhile_suffix _).sublist.length_le)

/-- Translation of DataCleaner._extract_hashtags: hash-prefixed matches,
lowercased (ASCII lowercasing; Python also lowers non-ASCII letters). -/
def extract_hashtags (text : String) : List String :=
  (findTagged '#' isHashtagChar text.data).map
    (fun m => String.mk (('#' :: m).map Char.toLower))

/-- Translation of DataCleaner._extract_mentions: at-prefixed matches
over the username class, lowercased. -/
def extract_mentions (text : String) : List String :=
  (findTagged '@' isUserChar text.data).map
    (fun m => String.mk (('@' :: m).map Char.toLower))

/-- Body character class of the URL regex in _extract_urls: the exclamation
mark, the byte range from dollar to underscore (which the character class
ranges of the pattern denote), and lowercase letters. -/
def isUrlBodyChar (c : Char) : Bool :=
  c == '!' || (0x24 ≤ c.toNat && c.toNat ≤ 0x5f) || ('a' ≤ c && c ≤ 'z')

/-- re.findall of the URL pattern: an http:// or https:// prefix followed
by one or more body characters, non-overlapping left to right. -/
def findUrls : List Char → List String
  | [] => []
  | c :: rest =>
    if "https://".data.isPrefixOf (c :: rest) then
      let body := ((c :: rest).drop 8).takeWhile isUrlBodyChar
      if body ≠ [] then
        String.mk ("https://".data ++ body) :: findUrls (((c :: rest).drop 8).drop body.length)
      else findUrls rest
    else if "http://".data.isPrefixOf (c :: rest) then
      let body := ((c :: rest).drop 7).takeWhile isUrlBodyChar
      if body ≠ [] then
        String.mk ("http://".data ++ body) :: findUrls (((c :: rest).drop 7).drop body.length)
      else findUrls rest
    else findUrls rest
termination_by l => l.length
decreasing_by
  all_goals simp only [List.length_cons, List.length_drop]
  all_goals first
    | omega
    | exact Nat.lt_succ_of_le ((List.dropWhile_suffix _).sublist.length_le)

/-- Translation of DataCleaner._extract_urls. -/
def extract_urls (text : String) : List String :=
  findUrls text.data

/-- Word count of str.split with no separator: the number of maximal
non-whitespace runs. -/
def splitWsCount : List Char → Nat
  | [] => 0
  | c :: rest =>
    if c.isWhitespace then splitWsCount rest
    else 1 + splitWsCount (rest.dropWhile (fun x => ¬x.isWhitespace))
termination_by l => l.length
decreasing_by
  all_goals simp only [List.length_cons, List.length_drop]
  all_goals first
    | omega
    | exact Nat.lt_succ_of_le ((List.dropWhile_suffix _).sublist.length_le)

/-- Post type derived from the URL, as extract_metadata assigns it. -/
def postType (url : String) : String :=
  if strContains url "/reel/" then "reel"
  else if strContains url "/p/" then "post"
  else if strContains url "/tv/" then "igtv"
  else "unknown"

/-- Translation of DataCleaner.extract_metadata (data_cleaner.py lines
210-249) on the cleaned caption and URL.  On an empty caption the
extraction helpers all yield their defaults, matching the untouched
initial dictionary of the source. -/
def extract_metadata (emojiCount : String → Nat) (caption url : String) : PyVal :=
  PyVal.dict
    [("hashtags", PyVal.list ((extract_hashtags caption).map PyVal.str)),
     ("mentions", PyVal.list ((extract_mentions caption).map PyVal.str)),
     ("urls", PyVal.list ((extract_urls caption).map PyVal.str)),
     ("emoji_count", PyVal.int (if caption ≠ "" then (emojiCount caption : Int) else 0)),
     ("word_count", PyVal.int (splitWsCount caption.data)),
     ("has_location", PyVal.bool false),
     ("post_type", PyVal.str (postType url))]

/-- Tests whether any of the four fallible cleaning steps raises on this
input record. -/
def cleanersFail (unescape nfkc : String → String) (post_data : List (String × PyVal)) : Bool :=
  (clean_username_val (dictGet post_data "usernamePost" (PyVal.str ""))).isOk = false ||
  (clean_url_val (dictGet post_data "urlPost" (PyVal.str ""))).isOk = false ||
  (clean_caption_val unescape nfkc (dictGet post_data "caption" (PyVal.str ""))).isOk = false ||
  (clean_comments_val unescape nfkc (dictGet post_data "comments" (PyVal.dict []))).isOk = false

/-- Translation of DataCleaner.clean_post_data (data_cleaner.py lines
26-56): build the cleaned record, add the quality score and the metadata;
any exception in the steps is caught and the original input dictionary is
returned unchanged. -/
def clean_post_data (p : String → Option PyDateTime) (e : Nat → Option PyDateTime)
    (now : PyDateTime) (unescape nfkc : String → String) (emojiCount : String → Nat)
    (post_data : List (String × PyVal)) : List (String × PyVal) :=
  match clean_username_val (dictGet post_data "usernamePost" (PyVal.str "")),
      clean_url_val (dictGet post_data "urlPost" (PyVal.str "")),
      clean_caption_val unescape nfkc (dictGet post_data "caption" (PyVal.str "")),
      clean_comments_val unescape nfkc (dictGet post_data "comments" (PyVal.dict [])) with
  | Except.ok u, Except.ok url, Except.ok cap, Except.ok com =>
    let date := clean_release_date_val p e now (dictGet post_data "releaseDate" (PyVal.str ""))
    [("usernamePost", PyVal.str u),
     ("urlPost", PyVal.str url),
     ("releaseDate", PyVal.str date),
     ("caption", PyVal.str cap),
     ("comments", PyVal.dict (com.map (fun kv => (kv.1, PyVal.str kv.2)))),
     ("quality_score", PyVal.rat (calculate_quality_score ⟨u, url, date, cap, com⟩)),
     ("metadata", extract_metadata emojiCount cap url)]
  | _, _, _, _ => post_data

/-- Valid post link used by the discovery theorems. -/
def linkA : String := "https://www.instagram.com/p/AAA/"

/-- Second valid post link used by the discovery theorems. -/
def linkB : String := "https://www.instagram.com/p/BBB/"

/-- Element href list with three occurrences of one link before a second
unique link: the input on which the early stop of _get_post_links hides
the second unique link. -/
def dupHrefs : List (Option String) :=
  [some linkA, some linkA, some linkA, some linkB]

/-- Concrete timezone-aware datetime standing in for the current UTC time
in witnesses. -/
def nowSample : PyDateTime :=
  ⟨2025, 1, 2, 3, 4, 5, some (false, 0, 0)⟩

/-- Record whose urlPost value is a truthy non-string, making clean_url
raise inside clean_post_data. -/
def failingRecord : List (String × PyVal) :=
  [("urlPost", PyVal.int 5)]

/-! ## Theorems -/

section SharedLemmas

theorem switch_snd (sm : SessionManager) :
    (switch_to_backup_account sm).2 = bumpIndex sm := by
  unfold switch_to_backup_account
  dsimp only
  split_ifs <;> rfl

theorem switch_fst (accs : List Account) (k : Nat) :
    (switch_to_backup_account ⟨accs, (k : ℤ)⟩).1 =
      if accs.length ≤ k + 1 then none else accs.get? (k + 1) := by
  unfold switch_to_backup_account get_current_account bumpIndex
  dsimp only
  have h1 : ((k : ℤ) + 1).toNat = k + 1 := by omega
  split_ifs with ha hb hc <;> simp_all [h1] <;> omega

theorem bumpIndex_nat (accs : List Account) (k : Nat) :
    bumpIndex ⟨accs, (k : ℤ)⟩ = ⟨accs, ((k + 1 : Nat) : ℤ)⟩ := by
  unfold bumpIndex
  simp

theorem stateAfter_eq (accs : List Account) (k : Nat) :
    stateAfterCalls ⟨accs, 0⟩ k = ⟨accs, (k : ℤ)⟩ := by
  induction k with
  | zero => rfl
  | succ n ih =>
    rw [stateAfterCalls, ih, switch_snd]
    unfold bumpIndex
    simp

theorem backupLoop_any (login : Account → Bool) (accs : List Account) :
    ∀ (n k : Nat), accs.length - k ≤ n →
      (backupLoop login ⟨accs, (k : ℤ)⟩).1 = (accs.drop (k + 1)).any login := by
  intro n
  induction n with
  | zero =>
    intro k hk
    have hle : accs.length ≤ k + 1 := by omega
    rw [backupLoop]
    split
    · simp [List.drop_eq_nil_of_le hle]
    · rename_i acc hsome
      rw [switch_fst, if_pos hle] at hsome
      simp at hsome
  | succ n ih =>
    intro k hk
    rw [backupLoop]
    split
    · rename_i hnone
      rw [switch_fst] at hnone
      split at hnone
      · rename_i hle
        simp [List.drop_eq_nil_of_le hle]
      · rename_i hgt
        have hlt : k + 1 < accs.length := by omega
        rw [List.get?_eq_get hlt] at hnone
        simp at hnone
    · rename_i acc hsome
      rw [switch_fst] at hsome
      split at hsome
      · simp at hsome
      · rename_i hgt
        have hlt : k + 1 < accs.length := by omega
        rw [List.get?_eq_get hlt] at hsome
        simp only [Option.some_inj] at hsome
        subst hsome
        have hdrop : accs.drop (k + 1) = accs.get ⟨k + 1, hlt⟩ :: accs.drop (k + 2) :=
          List.drop_eq_get_cons hlt
        rw [hdrop]
        simp only [List.get_eq_getElem] at hdrop ⊢
        by_cases hl : login accs[k + 1] = true
        · rw [if_pos hl]
          simp only [List.any_cons, hl, Bool.true_or]
        · have h2 := ih (k + 1) (by omega)
          simp only [hl, if_false, List.any_cons, Bool.false_or]
          simpa using h2

theorem backupAttempts_eq (login : Account → Bool) (accs : List Account) :
    ∀ (n k : Nat), accs.length - k ≤ n →
      backupAttempts login ⟨accs, (k : ℤ)⟩ = attemptsOn login (accs.drop (k + 1)) := by
  intro n
  induction n with
  | zero =>
    intro k hk
    have hle : accs.length ≤ k + 1 := by omega
    rw [backupAttempts]
    split
    · simp [List.drop_eq_nil_of_le hle, attemptsOn]
    · rename_i acc hsome
      rw [switch_fst, if_pos hle] at hsome
      simp at hsome
  | succ n ih =>
    intro k hk
    rw [backupAttempts]
    split
    · rename_i hnone
      rw [switch_fst] at hnone
      split at hnone
      · rename_i hle
        simp [List.drop_eq_nil_of_le hle, attemptsOn]
      · rename_i hgt
        have hlt : k + 1 < accs.length := by omega
        rw [List.get?_eq_get hlt] at hnone
        simp at hnone
    · rename_i acc hsome
      rw [switch_fst] at hsome
      split at hsome
      · simp at hsome
      · rename_i hgt
        have hlt : k + 1 < accs.length := by omega
        rw [List.get?_eq_get hlt] at hsome
        simp only [Option.some_inj] at hsome
        subst hsome
        have hdrop : accs.drop (k + 1) = accs.get ⟨k + 1, hlt⟩ :: accs.drop (k + 2) :=
          List.drop_eq_get_cons hlt
        rw [hdrop, attemptsOn]
        simp only [List.get_eq_getElem] at hdrop ⊢
        by_cases hl : login accs[k + 1] = true
        · rw [if_pos hl, if_pos hl]
        · have h2 := ih (k + 1) (by omega)
          rw [if_neg hl, if_neg hl]
          simp only [List.cons.injEq, true_and]
          simpa using h2

theorem get_current_head (a : Account) (t : List Account) :
    get_current_account ⟨a :: t, 0⟩ = some a := by
  unfold get_current_account
  simp

theorem lwbs_fst_any (login : Account → Bool) (a : Account) (t : List Account) :
    (login_with_backup_support login ⟨a :: t, 0⟩).1 = (a :: t).any login := by
  unfold login_with_backup_support
  rw [get_current_head]
  have h := backupLoop_any login (a :: t) (a :: t).length 0 (by omega)
  simp only [Nat.cast_zero, List.drop_succ_cons, List.drop_zero] at h
  by_cases hl : login a = true
  · simp [hl]
  · simp [hl, h]

theorem las_attemptsOn (login : Account → Bool) (a : Account) (t : List Account) :
    login_attempt_sequence login ⟨a :: t, 0⟩ = attemptsOn login (a :: t) := by
  unfold login_attempt_sequence
  rw [get_current_head]
  have h := backupAttempts_eq login (a :: t) (a :: t).length 0 (by omega)
  simp only [Nat.cast_zero, List.drop_succ_cons, List.drop_zero] at h
  by_cases hl : login a = true
  · simp [hl, attemptsOn]
  · simp [hl, attemptsOn, h]

theorem attemptsOn_all_fail (login : Account → Bool) :
    ∀ l : List Account, (∀ a ∈ l, login a = false) → attemptsOn login l = l := by
  intro l
  induction l with
  | nil => intro _; rfl
  | cons a t ih =>
    intro h
    rw [attemptsOn, if_neg (by simp [h a (List.mem_cons_self a t)])]
    rw [ih (fun x hx => h x (List.mem_cons_of_mem a hx))]

theorem attemptsOn_take (login : Account → Bool) :
    ∀ (l : List Account) (i : Nat) (hi : i < l.length),
      (∀ (j : Nat) (hj : j < l.length), j < i → login (l.get ⟨j, hj⟩) = false) →
      login (l.get ⟨i, hi⟩) = true → attemptsOn login l = l.take (i + 1) := by
  intro l
  induction l with
  | nil => intro i hi; simp at hi
  | cons a t ih =>
    intro i hi hfail hsucc
    cases i with
    | zero =>
      simp only [List.get] at hsucc
      rw [attemptsOn, if_pos hsucc]
      simp
    | succ i =>
      have ha : login a = false := hfail 0 (by simp) (by omega)
      rw [attemptsOn, if_neg (by simp [ha])]
      have ht := ih i (by simpa using hi)
        (fun j hj hlt => hfail (j + 1) (by simpa using hj) (by omega))
        (by simpa using hsucc)
      rw [ht]
      simp

theorem applyOp_accounts (sm : SessionManager) (op : RotationOp) :
    (applyOp sm op).accounts = sm.accounts := by
  cases op <;> simp [applyOp, switch_snd, bumpIndex, reset_account_index]

end SharedLemmas

/-- Claim C1 (amended): for every cleaned post record the quality score of
the code equals the spec decomposition — the capped sum of the author,
URL, caption and comment contributions — and the quality-scoring scenario
evaluates to exactly 1 once its URL actually has the canonical Instagram
post shape (the spec scenario URL https://host/p/X/ lacks the
instagram.com substring required by the code, see the counterexample). -/
theorem quality_score_spec_decomposition :
    (∀ post : CleanedPost, CleanedUsername post.usernamePost →
      calculate_quality_score post = specQualityScore post) ∧
    calculate_quality_score scenarioInstagramPost = 1 := by
  constructor
  · intro post h
    have hdata : ∀ s : String, s ≠ "" → s.data ≠ [] := by
      intro s hs hd
      exact hs (by cases s; simp_all)
    have hauthor : usernameScoreSrc post.usernamePost = specAuthorScore post.usernamePost := by
      unfold usernameScoreSrc specAuthorScore
      rcases h with h | ⟨h1, h2⟩
      · rw [h]; simp
      · have hm : matchesUserPattern post.usernamePost = true := by
          unfold matchesUserPattern
          simp only [Bool.or_eq_true, Bool.and_eq_true]
          exact Or.inl ⟨by simpa using hdata _ h1, h2⟩
        rw [hm]
        simp [hdata _ h1, h1, h2]
    unfold calculate_quality_score specQualityScore specUrlScore specCaptionScore
      specCommentScore urlScoreSrc captionScoreSrc commentScoreSrc
    rw [hauthor]
    ring_nf
  · simp +decide only [calculate_quality_score, usernameScoreSrc, urlScoreSrc,
      captionScoreSrc, commentScoreSrc, scenarioInstagramPost, scenarioHostPost]
    norm_num

/-- Witness for C1: the amended decomposition applied to the concrete
scenario record, whose username is a cleaned one. -/
theorem quality_score_spec_decomposition_witness :
    CleanedUsername scenarioInstagramPost.usernamePost ∧
      calculate_quality_score scenarioInstagramPost = specQualityScore scenarioInstagramPost :=
  ⟨Or.inr ⟨by decide, by decide⟩,
    quality_score_spec_decomposition.1 scenarioInstagramPost (Or.inr ⟨by decide, by decide⟩)⟩

/-- Counterexample for C1 as stated: the spec scenario record with
url = https://host/p/X/ scores 9/10, not the claimed 1.0, because the
code awards the full URL weight only when the URL contains the
instagram.com substring. -/
theorem quality_score_host_scenario_counterexample :
    calculate_quality_score scenarioHostPost = 9/10 ∧
      calculate_quality_score scenarioHostPost ≠ 1 := by
  have h : calculate_quality_score scenarioHostPost = 9/10 := by
    simp +decide only [calculate_quality_score, usernameScoreSrc, urlScoreSrc,
      captionScoreSrc, commentScoreSrc, scenarioHostPost]
    norm_num
  exact ⟨h, by rw [h]; norm_num⟩

/-- Claim C2 (code bug): the third tier of the post-login success detector
never fires — the translation of test_basic_navigation returns false for
every URL, including the canonical logged-in home URL that the spec says
must classify as success, because the pattern loop ends in an
unconditional early return. -/
theorem navigation_check_always_fails :
    (∀ url : String, test_basic_navigation url = false) ∧
      test_basic_navigation "https://www.instagram.com/" = false := by
  have hall : ∀ url : String, test_basic_navigation url = false := by
    intro url
    unfold test_basic_navigation navPatternLoop failed_login_patterns
    split_ifs <;> simp
  exact ⟨hall, hall _⟩

/-- Claim C3 (confirmed): with the cursor on the first account of an
N-account list, each of calls 1..N-1 to switch_to_backup_account yields
the account at that list position (strictly forward, no wraparound), and
every call from the N-th on yields the exhaustion signal None. -/
theorem rotation_advance_exhaustion (accs : List Account) (hN : 1 ≤ accs.length) :
    (∀ k : Nat, 1 ≤ k → k + 1 ≤ accs.length →
      (switch_to_backup_account (stateAfterCalls ⟨accs, 0⟩ (k - 1))).1 = accs.get? k ∧
        accs.get? k ≠ none) ∧
    (∀ k : Nat, accs.length ≤ k →
      (switch_to_backup_account (stateAfterCalls ⟨accs, 0⟩ (k - 1))).1 = none) := by
  constructor
  · intro k hk1 hk2
    have hklt : k < accs.length := by omega
    rw [stateAfter_eq, switch_fst]
    have hkk : k - 1 + 1 = k := by omega
    rw [hkk, if_neg (by omega)]
    refine ⟨rfl, ?_⟩
    rw [List.get?_eq_get hklt]
    simp
  · intro k hk
    have hk1 : 1 ≤ k := by omega
    rw [stateAfter_eq, switch_fst]
    have hkk : k - 1 + 1 = k := by omega
    rw [hkk, if_pos (by omega)]

/-- Witness for C3 on a three-account list: the first call returns the
second account, and the third call is exhausted. -/
theorem rotation_advance_exhaustion_witness :
    ((switch_to_backup_account (stateAfterCalls ⟨accs3, 0⟩ 0)).1 = accs3.get? 1 ∧
      accs3.get? 1 ≠ none) ∧
    (switch_to_backup_account (stateAfterCalls ⟨accs3, 0⟩ 2)).1 = none :=
  ⟨(rotation_advance_exhaustion accs3 (by decide)).1 1 (by decide) (by decide),
    (rotation_advance_exhaustion accs3 (by decide)).2 3 (by decide)⟩

/-- Claim C4 (amended): the RotationState invariant 0 ≤ cursor ≤ number of
credentials is preserved by every operation sequence in which advance is
only issued while the state is not yet exhausted; an advance issued in
the exhausted state pushes the cursor past the credential count (see the
counterexample), so the unguarded claim fails. -/
theorem rotation_invariant_guarded (ops : List RotationOp) (sm : SessionManager)
    (h0 : 0 ≤ sm.current_account_index)
    (h1 : sm.current_account_index ≤ (sm.accounts.length : ℤ))
    (hg : advancesGuarded sm ops = true) :
    0 ≤ (runOps sm ops).current_account_index ∧
      (runOps sm ops).current_account_index ≤ ((runOps sm ops).accounts.length : ℤ) := by
  induction ops generalizing sm with
  | nil => exact ⟨h0, h1⟩
  | cons op rest ih =>
    rw [advancesGuarded, Bool.and_eq_true] at hg
    rw [runOps]
    refine ih (applyOp sm op) ?_ ?_ hg.2
    · cases op <;>
        simp_all [applyOp, switch_snd, bumpIndex, reset_account_index] <;> omega
    · have hacc := applyOp_accounts sm op
      cases op
      · have hguard := hg.1
        simp only [bne_self_eq_false, Bool.false_or, decide_eq_true_eq] at hguard
        simp only [applyOp, switch_snd, bumpIndex, hacc] at *
        simp
        omega
      · simpa [applyOp]
      · simpa [applyOp]
      · simp [applyOp, reset_account_index]

/-- Witness for C4 (amended): a guarded advance-reset-advance sequence on
a one-account list keeps the cursor inside the invariant range. -/
theorem rotation_invariant_guarded_witness :
    advancesGuarded ⟨[⟨"user_a", "pass_a"⟩], 0⟩
        [RotationOp.advance, RotationOp.reset, RotationOp.advance] = true ∧
      0 ≤ (runOps ⟨[⟨"user_a", "pass_a"⟩], 0⟩
        [RotationOp.advance, RotationOp.reset, RotationOp.advance]).current_account_index ∧
      (runOps ⟨[⟨"user_a", "pass_a"⟩], 0⟩
          [RotationOp.advance, RotationOp.reset, RotationOp.advance]).current_account_index ≤
        ((runOps ⟨[⟨"user_a", "pass_a"⟩], 0⟩
          [RotationOp.advance, RotationOp.reset, RotationOp.advance]).accounts.length : ℤ) := by
  refine ⟨by decide, ?_⟩
  have h := rotation_invariant_guarded
    [RotationOp.advance, RotationOp.reset, RotationOp.advance]
    ⟨[⟨"user_a", "pass_a"⟩], 0⟩ (by decide) (by decide) (by decide)
  exact h

/-- Counterexample for C4 as stated: issuing advance twice from the
initial state of a one-account list drives the cursor to 2, strictly
above the credential count 1, so the unguarded invariant claim is
false. -/
theorem rotation_invariant_counterexample :
    (runOps ⟨[⟨"user_a", "pass_a"⟩], 0⟩
        [RotationOp.advance, RotationOp.advance]).current_account_index = 2 ∧
      ¬((runOps ⟨[⟨"user_a", "pass_a"⟩], 0⟩
          [RotationOp.advance, RotationOp.advance]).current_account_index ≤
        ((runOps ⟨[⟨"user_a", "pass_a"⟩], 0⟩
          [RotationOp.advance, RotationOp.advance]).accounts.length : ℤ)) := by
  constructor <;> decide

/-- Claim C5 (confirmed): starting from the first account of a non-empty
list, login_with_backup_support fails terminally exactly when every
per-account login fails, in which case each account is attempted exactly
once in list order; and when the first success occurs at position i the
run returns success having attempted only the first i+1 accounts. -/
theorem login_backup_exhaustion (login : Account → Bool) (accs : List Account)
    (h : accs ≠ []) :
    ((login_with_backup_support login ⟨accs, 0⟩).1 = false ↔
      ∀ a ∈ accs, login a = false) ∧
    ((∀ a ∈ accs, login a = false) →
      login_attempt_sequence login ⟨accs, 0⟩ = accs) ∧
    (∀ (i : Nat) (hi : i < accs.length),
      (∀ (j : Nat) (hj : j < accs.length), j < i → login (accs.get ⟨j, hj⟩) = false) →
      login (accs.get ⟨i, hi⟩) = true →
      (login_with_backup_support login ⟨accs, 0⟩).1 = true ∧
        login_attempt_sequence login ⟨accs, 0⟩ = accs.take (i + 1)) := by
  obtain ⟨a, t, rfl⟩ : ∃ a t, accs = a :: t := by
    cases accs with
    | nil => exact absurd rfl h
    | cons a t => exact ⟨a, t, rfl⟩
  refine ⟨?_, ?_, ?_⟩
  · rw [lwbs_fst_any]
    simp [List.any_eq_true]
  · intro hfail
    rw [las_attemptsOn]
    exact attemptsOn_all_fail login _ hfail
  · intro i hi hfail hsucc
    constructor
    · rw [lwbs_fst_any]
      exact List.any_eq_true.2 ⟨(a :: t).get ⟨i, hi⟩, List.get_mem _ _ _, hsucc⟩
    · rw [las_attemptsOn]
      exact attemptsOn_take login (a :: t) i hi hfail hsucc

/-- Witness for C5: on the three-account list with an always-failing
login oracle, the run fails terminally and attempts all three accounts
in order. -/
theorem login_backup_exhaustion_witness :
    (login_with_backup_support (fun _ => false) ⟨accs3, 0⟩).1 = false ∧
      login_attempt_sequence (fun _ => false) ⟨accs3, 0⟩ = accs3 := by
  have h := login_backup_exhaustion (fun _ => false) accs3 (by decide)
  exact ⟨h.1.mpr (fun a _ => rfl), h.2.1 (fun a _ => rfl)⟩

/-- Claim C8 (confirmed): the quality score is a pure deterministic
function of the record with values in the unit interval. -/
theorem quality_score_pure_and_bounded (post : CleanedPost) :
    calculate_quality_score post = calculate_quality_score post ∧
      0 ≤ calculate_quality_score post ∧ calculate_quality_score post ≤ 1 := by
  refine ⟨rfl, ?_, min_le_right _ _⟩
  refine le_min ?_ (by norm_num)
  have h1 : 0 ≤ usernameScoreSrc post.usernamePost := by
    unfold usernameScoreSrc; split_ifs <;> norm_num
  have h2 : 0 ≤ urlScoreSrc post.urlPost := by
    unfold urlScoreSrc; split_ifs <;> norm_num
  have h3 : 0 ≤ captionScoreSrc post.caption := by
    unfold captionScoreSrc; split_ifs <;> norm_num
  have h4 : 0 ≤ commentScoreSrc post.comments := by
    unfold commentScoreSrc; dsimp only; split_ifs <;> norm_num
  linarith

section DiscoveryLemmas

theorem mem_dedupKeep : ∀ (l : List String) (seen : List String) (x : String),
    x ∈ dedupKeep seen l ↔ x ∈ l ∧ x ∉ seen := by
  intro l
  induction l with
  | nil => intro seen x; simp [dedupKeep]
  | cons a rest ih =>
    intro seen x
    rw [dedupKeep]
    split_ifs with ha
    · rw [ih seen x]
      constructor
      · rintro ⟨hx, hns⟩
        exact ⟨List.mem_cons_of_mem a hx, hns⟩
      · rintro ⟨hx, hns⟩
        rcases List.mem_cons.1 hx with rfl | hx
        · exact absurd ha hns
        · exact ⟨hx, hns⟩
    · constructor
      · intro hx
        rcases List.mem_cons.1 hx with rfl | hx
        · exact ⟨List.mem_cons_self _ _, ha⟩
        · rw [ih (a :: seen) x] at hx
          refine ⟨List.mem_cons_of_mem a hx.1, ?_⟩
          intro hs
          exact hx.2 (List.mem_cons_of_mem a hs)
      · rintro ⟨hx, hns⟩
        rcases List.mem_cons.1 hx with rfl | hx
        · exact List.mem_cons_self _ _
        · by_cases hxa : x = a
          · subst hxa; exact List.mem_cons_self _ _
          · refine List.mem_cons_of_mem _ ((ih (a :: seen) x).2 ⟨hx, ?_⟩)
            intro hs
            rcases List.mem_cons.1 hs with h | h
            · exact hxa h
            · exact hns h

theorem nodup_dedupKeep : ∀ (l : List String) (seen : List String),
    (dedupKeep seen l).Nodup := by
  intro l
  induction l with
  | nil => intro seen; simp [dedupKeep]
  | cons a rest ih =>
    intro seen
    rw [dedupKeep]
    split_ifs with ha
    · exact ih seen
    · refine List.nodup_cons.2 ⟨?_, ih (a :: seen)⟩
      intro hmem
      exact ((mem_dedupKeep rest (a :: seen) a).1 hmem).2 (List.mem_cons_self _ _)

theorem dedupKeep_sublist : ∀ (l : List String) (seen : List String),
    (dedupKeep seen l).Sublist l := by
  intro l
  induction l with
  | nil => intro seen; simp [dedupKeep]
  | cons a rest ih =>
    intro seen
    rw [dedupKeep]
    split_ifs with ha
    · exact (ih seen).cons a
    · exact (ih (a :: seen)).cons₂ a

theorem dedupKeep_pairwise : ∀ (l seen : List String),
    List.Pairwise (fun a b => l.indexOf a < l.indexOf b) (dedupKeep seen l) := by
  intro l
  induction l with
  | nil => intro seen; simp [dedupKeep]
  | cons a rest ih =>
    intro seen
    rw [dedupKeep]
    split_ifs with ha
    · refine (ih seen).imp_of_mem ?_
      intro x y hx hy hlt
      have hxr := (mem_dedupKeep rest seen x).1 hx
      have hyr := (mem_dedupKeep rest seen y).1 hy
      have hxa : x ≠ a := fun h => hxr.2 (h ▸ ha)
      have hya : y ≠ a := fun h => hyr.2 (h ▸ ha)
      rw [List.indexOf_cons_ne _ (Ne.symm hxa), List.indexOf_cons_ne _ (Ne.symm hya)]
      omega
    · refine List.pairwise_cons.2 ⟨?_, ?_⟩
      · intro y hy
        have hyr := (mem_dedupKeep rest (a :: seen) y).1 hy
        have hya : y ≠ a := fun h => hyr.2 (h ▸ List.mem_cons_self a seen)
        rw [List.indexOf_cons_self, List.indexOf_cons_ne _ (Ne.symm hya)]
        omega
      · refine (ih (a :: seen)).imp_of_mem ?_
        intro x y hx hy hlt
        have hxr := (mem_dedupKeep rest (a :: seen) x).1 hx
        have hyr := (mem_dedupKeep rest (a :: seen) y).1 hy
        have hxa : x ≠ a := fun h => hxr.2 (h ▸ List.mem_cons_self a seen)
        have hya : y ≠ a := fun h => hyr.2 (h ▸ List.mem_cons_self a seen)
        rw [List.indexOf_cons_ne _ (Ne.symm hxa), List.indexOf_cons_ne _ (Ne.symm hya)]
        omega

theorem collect_valid (m : Nat) : ∀ (hrefs : List (Option String)) (acc : List String),
    (∀ x ∈ acc, isPostLink x = true) →
    ∀ x ∈ collectPostLinks m acc hrefs, isPostLink x = true := by
  intro hrefs
  induction hrefs with
  | nil => intro acc hacc; simpa [collectPostLinks] using hacc
  | cons h rest ih =>
    intro acc hacc
    rw [collectPostLinks.eq_def]
    rcases h with _ | href
    · exact ih acc hacc
    · dsimp only
      split_ifs with h1 h2 h3
      · exact ih acc hacc
      · intro x hx
        rcases List.mem_append.1 hx with hx | hx
        · exact hacc x hx
        · rcases List.mem_singleton.1 hx with rfl
          exact h2
      · refine ih _ ?_
        intro x hx
        rcases List.mem_append.1 hx with hx | hx
        · exact hacc x hx
        · rcases List.mem_singleton.1 hx with rfl
          exact h2
      · exact ih acc hacc

theorem collect_complete (m : Nat) : ∀ (hrefs : List (Option String)) (acc : List String),
    acc.length + (allValidLinks hrefs).length ≤ m →
    collectPostLinks m acc hrefs = acc ++ allValidLinks hrefs := by
  intro hrefs
  induction hrefs with
  | nil => intro acc _; simp [collectPostLinks, allValidLinks]
  | cons h rest ih =>
    intro acc hlen
    rw [collectPostLinks.eq_def]
    rcases h with _ | href
    · rw [allValidLinks] at hlen ⊢
      exact ih acc hlen
    · rw [allValidLinks] at hlen ⊢
      dsimp only at hlen ⊢
      by_cases h1 : href = ""
      · simp only [if_pos h1] at hlen ⊢
        exact ih acc hlen
      · simp only [if_neg h1] at hlen ⊢
        by_cases h2 : isPostLink (normalizeHref href) = true
        · simp only [if_pos h2] at hlen ⊢
          by_cases h3 : m ≤ (acc ++ [normalizeHref href]).length
          · simp only [if_pos h3]
            have hr : allValidLinks rest = [] := by
              refine List.length_eq_zero.1 ?_
              simp only [List.length_append, List.length_singleton,
                List.length_cons, List.length_nil] at h3 hlen
              omega
            rw [hr]
          · simp only [if_neg h3]
            rw [ih (acc ++ [normalizeHref href]) (by simp at hlen ⊢; omega)]
            simp
        · simp only [if_neg h2] at hlen ⊢
          exact ih acc hlen

end DiscoveryLemmas

/-- Claim C6 (amended): post-link discovery returns a duplicate-free list
of URLs, each of the post/reel shape, in first-discovery order, of length
at most the requested count; and whenever the number of valid link
occurrences — duplicates included — does not exceed the target, the
result is exactly the order-preserving deduplication of all the links
present.  Because the early stop counts duplicate occurrences before
deduplication, the result can omit unique links that appear only after
the raw count reaches the target, which refutes the per-unique-link
reading of the claim (see the counterexample). -/
theorem discover_post_links_spec (hrefs : List (Option String)) (max_posts : Nat) :
    (get_post_links hrefs max_posts).Nodup ∧
    (∀ u ∈ get_post_links hrefs max_posts, isPostLink u = true) ∧
    (get_post_links hrefs max_posts).length ≤ max_posts ∧
    List.Pairwise
      (fun a b => (collectPostLinks max_posts [] hrefs).indexOf a <
        (collectPostLinks max_posts [] hrefs).indexOf b) (get_post_links hrefs max_posts) ∧
    ((allValidLinks hrefs).length ≤ max_posts →
      get_post_links hrefs max_posts = dedupKeep [] (allValidLinks hrefs)) := by
  refine ⟨?_, ?_, ?_, ?_, ?_⟩
  · exact List.Nodup.sublist (List.take_sublist _ _) (nodup_dedupKeep _ _)
  · intro u hu
    have hmem : u ∈ dedupKeep [] (collectPostLinks max_posts [] hrefs) :=
      List.mem_of_mem_take hu
    exact collect_valid max_posts hrefs [] (by simp) u ((mem_dedupKeep _ _ _).1 hmem).1
  · exact List.length_take_le _ _
  · exact List.Pairwise.sublist (List.take_sublist _ _) (dedupKeep_pairwise _ _)
  · intro hle
    unfold get_post_links
    rw [collect_complete max_posts hrefs [] (by simpa using hle), List.nil_append]
    exact List.take_all_of_le (le_trans (dedupKeep_sublist _ _).length_le hle)

/-- Witness for C6: with a target of 10 the duplicate-heavy element list
yields exactly its two unique links. -/
theorem discover_post_links_spec_witness :
    (allValidLinks dupHrefs).length ≤ 10 ∧
      get_post_links dupHrefs 10 = dedupKeep [] (allValidLinks dupHrefs) :=
  ⟨by decide, (discover_post_links_spec dupHrefs 10).2.2.2.2 (by decide)⟩

/-- Counterexample for C6 as stated: only two unique links exist, fewer
than the target 3, yet discovery does not return both of them — the
three duplicate occurrences of the first link trip the early stop before
the second unique link is seen. -/
theorem discover_post_links_counterexample :
    (dedupKeep [] (allValidLinks dupHrefs)).length < 3 ∧
      get_post_links dupHrefs 3 ≠ dedupKeep [] (allValidLinks dupHrefs) := by
  constructor
  · decide
  · decide

section TimestampLemmas

theorem digitChar_isDigit (d : Nat) : (digitChar d).isDigit = true := by
  have haux : ∀ k, k < 10 → (Char.ofNat (48 + k)).isDigit = true := by decide
  exact haux (d % 10) (Nat.mod_lt _ (by norm_num))

theorem digitChar_toNat (d : Nat) : (digitChar d).toNat = 48 + d % 10 := by
  have haux : ∀ k, k < 10 → (Char.ofNat (48 + k)).toNat = 48 + k := by decide
  exact haux (d % 10) (Nat.mod_lt _ (by norm_num))

theorem val2_pad2 (n : Nat) (h : n ≤ 99) :
    val2 (digitChar (n / 10)) (digitChar n) = n := by
  unfold val2
  rw [digitChar_toNat, digitChar_toNat]
  omega

theorem val4_pad4 (n : Nat) (h : n ≤ 9999) :
    val4 (digitChar (n / 1000)) (digitChar (n / 100)) (digitChar (n / 10)) (digitChar n) = n := by
  unfold val4
  rw [digitChar_toNat, digitChar_toNat, digitChar_toNat, digitChar_toNat]
  omega

theorem iso_valid (dt : PyDateTime) (h : dt.validFields = true) :
    isValidISO8601 (isoformat dt) = true := by
  obtain ⟨y, mo, d, hh, mi, s, tz⟩ := dt
  rcases tz with _ | ⟨neg, oh, om⟩
  · simp only [PyDateTime.validFields, Bool.and_eq_true, Bool.and_true,
      decide_eq_true_eq] at h
    obtain ⟨⟨⟨⟨⟨⟨⟨⟨hy1, hy2⟩, hm1⟩, hm2⟩, hd1⟩, hd2⟩, hh1⟩, hmi⟩, hs⟩ := h
    unfold isoformat isValidISO8601 isoChars pad4 pad2
    simp only [List.cons_append, List.nil_append, List.append_nil]
    simp only [List.all_cons, List.all_nil, digitChar_isDigit, Bool.and_true, Bool.true_and]
    rw [val4_pad4 y (by omega), val2_pad2 mo (by omega), val2_pad2 d (by omega),
      val2_pad2 hh (by omega), val2_pad2 mi (by omega), val2_pad2 s (by omega)]
    simp only [Bool.and_eq_true, decide_eq_true_eq]
    omega
  · simp only [PyDateTime.validFields, Bool.and_eq_true, Bool.and_true,
      decide_eq_true_eq] at h
    obtain ⟨⟨⟨⟨⟨⟨⟨⟨⟨hy1, hy2⟩, hm1⟩, hm2⟩, hd1⟩, hd2⟩, hh1⟩, hmi⟩, hs⟩, ho, hm⟩ := h
    unfold isoformat isValidISO8601 isoChars pad4 pad2
    cases neg
    all_goals
      simp only [Bool.false_eq_true, if_false, if_true, List.cons_append, List.nil_append,
        List.append_nil]
      simp +decide only [List.all_cons, List.all_nil, digitChar_isDigit, Bool.and_true,
        Bool.true_and, Bool.or_true, Bool.true_or]
      rw [val4_pad4 y (by omega), val2_pad2 mo (by omega), val2_pad2 d (by omega),
        val2_pad2 hh (by omega), val2_pad2 mi (by omega), val2_pad2 s (by omega),
        val2_pad2 oh (by omega), val2_pad2 om (by omega)]
      simp only [Bool.and_eq_true, decide_eq_true_eq]
      exact ⟨by omega, ⟨by decide, ho⟩, hm⟩

end TimestampLemmas

/-- Claim C7 (confirmed): clean_timestamp is total — for every string
input and every behavior of the abstract fromisoformat and fromtimestamp
oracles it returns a syntactically valid ISO-8601 string, and whenever
both oracles fail to parse, the result is exactly the rendering of the
current UTC time. -/
theorem clean_timestamp_total (p : String → Option PyDateTime) (e : Nat → Option PyDateTime)
    (now : PyDateTime) (s : String)
    (hp : ∀ t dt, p t = some dt → dt.validFields = true)
    (he : ∀ n dt, e n = some dt → dt.validFields = true)
    (hnow : now.validFields = true) :
    isValidISO8601 (clean_release_date p e now s) = true ∧
    ((∀ t, p t = none) → (∀ n, e n = none) →
      clean_release_date p e now s = isoformat now) := by
  constructor
  · unfold clean_release_date
    dsimp only
    split_ifs with h1 h2 h3
    · exact iso_valid now hnow
    · split
      · rename_i dt hdt
        exact iso_valid dt (hp _ dt hdt)
      · exact iso_valid now hnow
    · split
      · rename_i dt hdt
        exact iso_valid dt (he _ dt hdt)
      · exact iso_valid now hnow
    · exact iso_valid now hnow
  · intro hpn hen
    unfold clean_release_date
    dsimp only
    simp only [hpn, hen]
    split_ifs <;> rfl

/-- Witness for C7: with both parse oracles failing on a malformed input,
the result is the valid rendering of the current time. -/
theorem clean_timestamp_total_witness :
    isValidISO8601 (clean_release_date (fun _ => none) (fun _ => none)
      nowSample "not a date") = true ∧
    clean_release_date (fun _ => none) (fun _ => none) nowSample "not a date" =
      isoformat nowSample := by
  have h := clean_timestamp_total (fun _ => none) (fun _ => none) nowSample "not a date"
    (fun t dt hdt => by cases hdt) (fun n dt hdt => by cases hdt) (by decide)
  exact ⟨h.1, h.2 (fun _ => rfl) (fun _ => rfl)⟩

section UrlLemmas

theorem unquote_eq_self : ∀ l : List Char, (∀ c ∈ l, ¬c = '%') → unquoteChars l = l := by
  intro l
  induction l with
  | nil => intro _; rw [unquoteChars.eq_def]
  | cons c rest ih =>
    intro h
    rw [unquoteChars.eq_def]
    dsimp only
    rw [if_neg (h c (List.mem_cons_self _ _))]
    rw [ih (fun x hx => h x (List.mem_cons_of_mem c hx))]

theorem isPrefixOf_append_self : ∀ (l r : List Char), l.isPrefixOf (l ++ r) = true := by
  intro l r
  induction l with
  | nil => simp [List.isPrefixOf]
  | cons a t ih => simpa [List.isPrefixOf] using ih

theorem strip_bounded (l : List Char)
    (hh : ∀ d t2, l = d :: t2 → d.isWhitespace = false)
    (hr : ∀ d t2, l.reverse = d :: t2 → d.isWhitespace = false) :
    stripChars l = l := by
  unfold stripChars
  rcases hl : l with _ | ⟨c, t⟩
  · rfl
  · rw [List.dropWhile_cons, if_neg (by simp [hh c t hl])]
    rcases hrev : (c :: t).reverse with _ | ⟨d, t2⟩
    · exact absurd hrev (by simp)
    · have hdw : d.isWhitespace = false := hr d t2 (by rw [hl]; exact hrev)
      rw [List.dropWhile_cons, if_neg (by simp [hdw])]
      rw [← hrev, List.reverse_reverse]

theorem clean_url_canonical (u : String) (h : CanonicalPostUrl u) : clean_url u = u := by
  obtain ⟨kind, code, hkind, hcne, hcall, rfl⟩ := h
  set w : String := "https://www.instagram.com/" ++ kind ++ "/" ++ String.mk code ++ "/" with hw
  have hdata : w.data =
      "https://www.instagram.com/".data ++ (kind.data ++ ('/' :: (code ++ ['/']))) := by
    rw [hw]
    show ((("https://www.instagram.com/".data ++ kind.data) ++ ['/']) ++ code) ++ ['/'] = _
    simp [List.append_assoc]
  have hhead : ∀ d t2, w.data = d :: t2 → d.isWhitespace = false := by
    intro d t2 hd
    rw [hdata] at hd
    rw [show "https://www.instagram.com/".data =
      'h' :: "ttps://www.instagram.com/".data from rfl] at hd
    rw [List.cons_append] at hd
    obtain ⟨rfl, -⟩ := List.cons.injEq .. ▸ hd
    decide
  have hrevd : ∀ d t2, w.data.reverse = d :: t2 → d.isWhitespace = false := by
    intro d t2 hd
    have hregroup : w.data =
        ("https://www.instagram.com/".data ++ (kind.data ++ ('/' :: code))) ++ ['/'] := by
      rw [hdata]
      simp [List.append_assoc]
    rw [hregroup, List.reverse_append] at hd
    simp only [List.reverse_cons, List.reverse_nil, List.nil_append,
      List.singleton_append] at hd
    obtain ⟨rfl, -⟩ := List.cons.injEq .. ▸ hd
    decide
  have hnp : ∀ c ∈ w.data, ¬c = '%' := by
    intro c hc heq
    subst heq
    rw [hdata] at hc
    rcases List.mem_append.1 hc with hc | hc
    · exact absurd hc (by decide)
    rcases List.mem_append.1 hc with hc | hc
    · rcases hkind with rfl | rfl
      · exact absurd hc (by decide)
      · exact absurd hc (by decide)
    rcases List.mem_cons.1 hc with hc | hc
    · exact absurd hc (by decide)
    rcases List.mem_append.1 hc with hc | hc
    · have hall := List.all_eq_true.1 hcall _ hc
      exact absurd hall (by decide)
    · exact absurd hc (by decide)
  have hne : w ≠ "" := by
    intro he
    have hd : w.data = [] := by rw [he]
    rw [hdata] at hd
    obtain ⟨h1, -⟩ := List.append_eq_nil.1 hd
    exact absurd h1 (by decide)
  unfold clean_url
  rw [if_neg hne]
  dsimp only
  have hstrip : pyStrip w = w := by
    unfold pyStrip
    rw [strip_bounded _ hhead hrevd]
  rw [hstrip]
  rw [unquote_eq_self _ hnp]
  have heta : String.mk w.data = w := rfl
  rw [heta]
  have hsw : pyStartsWith w "https://www.instagram.com/" = true := by
    unfold pyStartsWith
    rw [hdata]
    exact isPrefixOf_append_self _ _
  rw [if_neg (by simp [hsw])]

end UrlLemmas

/-- Claim C9 (confirmed): clean_url is idempotent on URLs already in the
canonical absolute Instagram post/reel form; on such a URL it is in fact
the identity, so a second application changes nothing. -/
theorem clean_url_idempotent_canonical (u : String) (h : CanonicalPostUrl u) :
    clean_url (clean_url u) = clean_url u := by
  have hc := clean_url_canonical u h
  rw [hc]
  exact hc

/-- Witness for C9 on a concrete canonical post URL. -/
theorem clean_url_idempotent_witness :
    CanonicalPostUrl "https://www.instagram.com/p/ABC123/" ∧
      clean_url (clean_url "https://www.instagram.com/p/ABC123/") =
        clean_url "https://www.instagram.com/p/ABC123/" := by
  have hcanon : CanonicalPostUrl "https://www.instagram.com/p/ABC123/" :=
    ⟨"p", ['A', 'B', 'C', '1', '2', '3'], Or.inl rfl, by decide, by decide, by decide⟩
  exact ⟨hcanon, clean_url_idempotent_canonical _ hcanon⟩

/-- Support lemma for the C1 hypothesis: every output of clean_username is
a cleaned username — the sentinel, or non-empty over the allowed
character class. -/
theorem clean_username_cleaned (u : String) : CleanedUsername (clean_username u) := by
  unfold clean_username CleanedUsername
  dsimp only
  split_ifs <;>
    first
      | exact Or.inl rfl
      | (rename_i hne
         refine Or.inr ⟨hne, ?_⟩
         apply List.all_eq_true.2
         intro c hc
         exact (List.mem_filter.1 hc).2)

/-- Claim C10 (confirmed): clean_post_data is atomic on error — when any
of the fallible cleaning steps raises, the original input dictionary is
returned unchanged, without the quality_score and metadata keys; when no
step raises, the result is the fully cleaned seven-key record with its
quality score and metadata. -/
theorem clean_post_data_atomic (p : String → Option PyDateTime) (e : Nat → Option PyDateTime)
    (now : PyDateTime) (unescape nfkc : String → String) (emojiCount : String → Nat)
    (post_data : List (String × PyVal)) :
    (cleanersFail unescape nfkc post_data = true →
      clean_post_data p e now unescape nfkc emojiCount post_data = post_data) ∧
    (cleanersFail unescape nfkc post_data = false →
      ∃ u url cap com,
        clean_post_data p e now unescape nfkc emojiCount post_data =
          [("usernamePost", PyVal.str u),
           ("urlPost", PyVal.str url),
           ("releaseDate", PyVal.str (clean_release_date_val p e now
             (dictGet post_data "releaseDate" (PyVal.str "")))),
           ("caption", PyVal.str cap),
           ("comments", PyVal.dict (com.map (fun kv => (kv.1, PyVal.str kv.2)))),
           ("quality_score", PyVal.rat (calculate_quality_score
             ⟨u, url, clean_release_date_val p e now
               (dictGet post_data "releaseDate" (PyVal.str "")), cap, com⟩)),
           ("metadata", extract_metadata emojiCount cap url)]) := by
  constructor
  · intro h
    rcases hU : clean_username_val (dictGet post_data "usernamePost" (PyVal.str "")) with eU | u <;>
    rcases hUrl : clean_url_val (dictGet post_data "urlPost" (PyVal.str "")) with eL | url <;>
    rcases hCap : clean_caption_val unescape nfkc
      (dictGet post_data "caption" (PyVal.str "")) with eC | cap <;>
    rcases hCom : clean_comments_val unescape nfkc
      (dictGet post_data "comments" (PyVal.dict [])) with eM | com <;>
    (unfold clean_post_data; rw [hU, hUrl, hCap, hCom]) <;>
    first
      | rfl
      | simp [cleanersFail, hU, hUrl, hCap, hCom, Except.isOk, Except.toBool] at h
  · intro h
    rcases hU : clean_username_val (dictGet post_data "usernamePost" (PyVal.str "")) with eU | u <;>
    rcases hUrl : clean_url_val (dictGet post_data "urlPost" (PyVal.str "")) with eL | url <;>
    rcases hCap : clean_caption_val unescape nfkc
      (dictGet post_data "caption" (PyVal.str "")) with eC | cap <;>
    rcases hCom : clean_comments_val unescape nfkc
      (dictGet post_data "comments" (PyVal.dict [])) with eM | com <;>
    first
      | (simp [cleanersFail, hU, hUrl, hCap, hCom, Except.isOk, Except.toBool] at h
         done)
      | (refine ⟨u, url, cap, com, ?_⟩
         unfold clean_post_data
         rw [hU, hUrl, hCap, hCom])

/-- Witness for C10: a record whose urlPost is a truthy integer makes the
URL cleaner raise; clean_post_data returns the record unchanged and the
caller indeed sees no quality_score key. -/
theorem clean_post_data_atomic_witness :
    cleanersFail id id failingRecord = true ∧
      clean_post_data (fun _ => none) (fun _ => none) nowSample id id (fun _ => 0)
        failingRecord = failingRecord ∧
      failingRecord.lookup "quality_score" = none := by
  refine ⟨rfl, ?_, rfl⟩
  exact (clean_post_data_atomic (fun _ => none) (fun _ => none) nowSample id id (fun _ => 0)
    failingRecord).1 rfl

end IGScraper
